import Mathlib

/-!
Verification development for the job-matching scoring engine of the
`nepali_social_media` repository (`accounts/job_matching.py`,
`accounts/views.py`, `accounts/models.py`).

Python text is modelled over `List Char` (`PyStr`); Python `float` /
`Decimal` arithmetic is modelled exactly: the three scorers that stay in
rational arithmetic are valued in `ℚ`, while the skills scorer, which
divides by square roots (`math.sqrt`), is valued in `ℝ`.
`re`-based operations are modelled on the ASCII fragment (the reference
vocabulary and every pattern in the source are ASCII).
-/

/-- Characters matched by the Python regex class `\w` (ASCII model):
alphanumerics and the underscore. -/
def isWordChar (c : Char) : Bool := c.isAlphanum || c == '_'

/-- Python strings, modelled as lists of characters. -/
abbrev PyStr := List Char

/-- Build a `PyStr` from a Lean string literal. -/
def pystr (s : String) : PyStr := s.data

/-- Python `str.lower()` (ASCII model). -/
def pyLower (s : PyStr) : PyStr := s.map Char.toLower

/-- Python `str.strip()`: drop leading and trailing whitespace. -/
def pyStrip (s : PyStr) : PyStr :=
  ((s.dropWhile Char.isWhitespace).reverse.dropWhile Char.isWhitespace).reverse

/-- Python `small in big` on strings: substring containment.
`pyIn [] []` is `true`, matching Python's `'' in ''`. -/
def pyIn (small : PyStr) : PyStr → Bool
  | [] => small.isEmpty
  | c :: rest => small.isPrefixOf (c :: rest) || pyIn small rest

/-- Helper for `pyWords`: accumulates the current (reversed) word. -/
def pyWordsAux (cur : PyStr) : PyStr → List PyStr
  | [] => if cur.isEmpty then [] else [cur.reverse]
  | c :: rest =>
    if c.isWhitespace then
      if cur.isEmpty then pyWordsAux [] rest else cur.reverse :: pyWordsAux [] rest
    else pyWordsAux (c :: cur) rest

/-- Python `str.split()` with no argument: split on whitespace runs,
discarding empty pieces. -/
def pyWords (s : PyStr) : List PyStr := pyWordsAux [] s

/-- `JobMatcher.normalize_text`: empty text maps to `""`; otherwise
lowercase, strip, and replace every character matching `[^\w\s]` by a
space (`re.sub(r'[^\w\s]', ' ', text.lower().strip())`). -/
def normalize_text (text : PyStr) : PyStr :=
  if text.isEmpty then []
  else (pyStrip (pyLower text)).map
    (fun c => if isWordChar c || c.isWhitespace then c else ' ')

/-- `JobMatcher.COMMON_SKILLS`, in source order. -/
def COMMON_SKILLS : List PyStr :=
  [pystr "python", pystr "java", pystr "javascript", pystr "react",
   pystr "django", pystr "spring", pystr "nodejs",
   pystr "angular", pystr "vue", pystr "html", pystr "css", pystr "sql",
   pystr "mysql", pystr "postgresql", pystr "mongodb",
   pystr "aws", pystr "docker", pystr "kubernetes", pystr "git",
   pystr "linux", pystr "machine learning", pystr "ai",
   pystr "data science", pystr "tensorflow", pystr "pytorch",
   pystr "pandas", pystr "numpy", pystr "flask",
   pystr "express", pystr "rest api", pystr "graphql",
   pystr "microservices", pystr "devops", pystr "ci/cd",
   pystr "jenkins", pystr "terraform", pystr "ansible", pystr "redis",
   pystr "elasticsearch", pystr "kafka",
   pystr "rabbitmq", pystr "celery", pystr "nginx", pystr "apache",
   pystr "load balancing", pystr "caching"]

/-- `re.match(r'\w*js$', w)`: the whole token is word characters and ends
in `js` (anchored by `re.match` at the start and `$` at the end). -/
def matches_js (w : PyStr) : Bool :=
  w.all isWordChar && (pystr "js").isSuffixOf w

/-- `re.match(r'\w*py$', w)`. -/
def matches_py (w : PyStr) : Bool :=
  w.all isWordChar && (pystr "py").isSuffixOf w

/-- `re.match(r'\w*sql$', w)`. -/
def matches_sql (w : PyStr) : Bool :=
  w.all isWordChar && (pystr "sql").isSuffixOf w

/-- `re.match(r'\w+\+\+$', w)`: at least one word character followed by a
literal `++` at the end of the token. -/
def matches_plusplus (w : PyStr) : Bool :=
  (pystr "++").isSuffixOf w && (w.take (w.length - 2)).all isWordChar
    && decide (3 ≤ w.length)

/-- One pass of the `tech_patterns` loop: the token matches some pattern. -/
def tech_match (w : PyStr) : Bool :=
  matches_js w || matches_py w || matches_sql w || matches_plusplus w

/-- `JobMatcher.extract_skills_from_text`: reference-vocabulary substring
scan followed by the token/pattern pass.  The trailing Python
`list(set(found_skills))` re-enumerates the same members in unspecified
set order; `found_skills` never holds duplicates (the pattern pass checks
`word not in found_skills` and `COMMON_SKILLS` has no duplicates), so we
keep the insertion order, which has exactly the same members. -/
def extract_skills_from_text (text : PyStr) : List PyStr :=
  let normalized := normalize_text text
  let vocab_found := COMMON_SKILLS.filter (fun sk => pyIn sk normalized)
  (pyWords normalized).foldl
    (fun acc w => if tech_match w && !(acc.contains w) then acc ++ [w] else acc)
    vocab_found

/-- `UserProfile` (accounts/models.py), restricted to the fields the
matching engine reads.  `experience_start_years` models
`(date.today() - experience_start_date).days / 365.25` when
`experience_start_date` is set (`none` when the date is absent);
`experience_years` is a `PositiveIntegerField` (hence `ℕ`), nullable. -/
structure UserProfile where
  user : ℕ
  skills : List PyStr
  experience_years : Option ℕ
  experience_start_years : Option ℚ
  preferred_salary_min : Option ℚ
  preferred_salary_max : Option ℚ
  preferred_locations : List PyStr
  remote_work_preference : Option String

/-- `Job` (accounts/models.py), restricted to the fields the engine and
the application/review views read.  `company_owner` is the id of
`job.company.owner`. -/
structure Job where
  id : ℕ
  company_owner : ℕ
  description : PyStr
  requirements : PyStr
  experience_level : String
  location : PyStr
  salary_min : Option ℚ
  salary_max : Option ℚ
  is_remote : Bool
  is_active : Bool

/-- Python's `round` to an integer: round half to even (banker's
rounding), as applied by `round(x, 1)` after scaling by 10. -/
def roundHalfEven (x : ℚ) : ℤ :=
  if x - ⌊x⌋ < 1 / 2 then ⌊x⌋
  else if 1 / 2 < x - ⌊x⌋ then ⌊x⌋ + 1
  else if Even ⌊x⌋ then ⌊x⌋ else ⌊x⌋ + 1

/-- Python `round(x, 1)` on exact rational values. -/
def roundTo1 (x : ℚ) : ℚ := (roundHalfEven (10 * x) : ℚ) / 10

/-- `UserProfile.get_current_experience_years`: when a start date exists,
`max(0, round(years, 1))` of the elapsed years; otherwise
`self.experience_years or 0` (for a `PositiveIntegerField`, `or 0` is the
same as replacing `None` by `0`). -/
def get_current_experience_years (p : UserProfile) : ℚ :=
  match p.experience_start_years with
  | some y => max 0 (roundTo1 y)
  | none => (p.experience_years.getD 0 : ℚ)

/-- `UserProfile.update_experience_years`: when a start date exists,
store `int(get_current_experience_years())`; `int` truncates toward zero
and the value is nonnegative, so this is the floor. -/
def update_experience_years (p : UserProfile) : UserProfile :=
  match p.experience_start_years with
  | some _ =>
    { p with experience_years := some (⌊get_current_experience_years p⌋.toNat) }
  | none => p

/-- The `experience_mapping` dict.  The upper bound is `Option ℚ`, with
`none` standing for the source's `float('inf')` on the executive band. -/
def experience_mapping (lvl : String) : Option (ℚ × Option ℚ) :=
  if lvl = "entry" then some (0, some 2)
  else if lvl = "mid" then some (2, some 5)
  else if lvl = "senior" then some (5, some 10)
  else if lvl = "executive" then some (10, none)
  else none

/-- `user_years <= max_exp` where `max_exp` may be `float('inf')`
(every float is `<= inf`). -/
def leUpper (y : ℚ) : Option ℚ → Bool
  | none => true
  | some m => decide (y ≤ m)

/-- `JobMatcher.calculate_experience_match`. -/
def calculate_experience_match (p : UserProfile) (j : Job) : ℚ :=
  let user_years := get_current_experience_years p
  match experience_mapping j.experience_level with
  | none => 50
  | some (min_exp, max_exp) =>
    if min_exp ≤ user_years ∧ leUpper user_years max_exp then 100
    else if user_years < min_exp then
      max 0 (100 - (min_exp - user_years) * 20)
    else
      match max_exp with
      | none => 100  -- unreachable: `leUpper y none` is `true`, so the first branch fires
      | some mx => max 70 (100 - (user_years - mx) * 5)

/-- `JobMatcher.calculate_location_match`. -/
def calculate_location_match (p : UserProfile) (j : Job) : ℚ :=
  let user_locations := p.preferred_locations.map pyLower
  let job_location := pyLower j.location
  if j.is_remote then
    if p.remote_work_preference ∈
        ([some "remote", some "hybrid", some "flexible"] : List (Option String))
    then 100 else 70
  else if user_locations.isEmpty then 50
  else if user_locations.any
      (fun ul => pyIn ul job_location || pyIn job_location ul) then 100
  else if user_locations.any
      (fun ul => (pyWords ul).any
        (fun part => decide (2 < part.length) && (pyWords job_location).contains part))
  then 80
  else 20

/-- Python truthiness test `not x` for an optional `Decimal`: true for
`None` and for zero. -/
def falsyQ : Option ℚ → Bool
  | none => true
  | some x => decide (x = 0)

/-- `JobMatcher.calculate_salary_match`. -/
def calculate_salary_match (p : UserProfile) (j : Job) : ℚ :=
  if falsyQ p.preferred_salary_min || falsyQ j.salary_max then 75
  else
    let user_min := p.preferred_salary_min.getD 0
    let user_max :=
      if falsyQ p.preferred_salary_max then user_min * 1.5
      else p.preferred_salary_max.getD 0
    let job_min := j.salary_min.getD 0  -- `float(job.salary_min or 0)`
    let job_max := j.salary_max.getD 0
    let overlap_start := max user_min job_min
    let overlap_end := min user_max job_max
    if overlap_start ≤ overlap_end then
      let user_range := user_max - user_min
      let overlap_size := overlap_end - overlap_start
      if 0 < user_range then
        min 100 (80 + overlap_size / user_range * 100 * 0.2)
      else 90
    else if job_max < user_min then
      max 20 (80 - (user_min - job_max) / job_max * 100)
    else 95

/-- The condition under which `calculate_salary_match` reaches the
division `(user_min - job_max) / job_max` (the no-overlap,
candidate-wants-more branch), read off the source's branch structure. -/
def salary_division_path (p : UserProfile) (j : Job) : Prop :=
  falsyQ p.preferred_salary_min = false ∧ falsyQ j.salary_max = false ∧
  (let user_min := p.preferred_salary_min.getD 0
   let user_max :=
     if falsyQ p.preferred_salary_max then user_min * 1.5
     else p.preferred_salary_max.getD 0
   let job_min := j.salary_min.getD 0
   let job_max := j.salary_max.getD 0
   ¬(max user_min job_min ≤ min user_max job_max) ∧ job_max < user_min)

instance (p : UserProfile) (j : Job) : Decidable (salary_division_path p j) := by
  unfold salary_division_path; infer_instance

/-- `sum(a * b for a, b in zip(vec1, vec2))`. -/
def dotQ (v1 v2 : List ℚ) : ℚ := (List.zipWith (· * ·) v1 v2).sum

/-- `sum(a * a for a in vec)`: the squared Euclidean magnitude. -/
def sumSq (v : List ℚ) : ℚ := (v.map (fun a => a * a)).sum

/-- `JobMatcher.cosine_similarity`.  The source tests
`magnitude1 == 0 or magnitude2 == 0` on the square roots; since
`math.sqrt x = 0` exactly when `x = 0` for `x ≥ 0`, the test is taken on
the (rational) radicands. -/
noncomputable def cosine_similarity (vec1 vec2 : List ℚ) : ℝ :=
  if vec1.isEmpty || vec2.isEmpty then 0
  else if sumSq vec1 = 0 ∨ sumSq vec2 = 0 then 0
  else (dotQ vec1 vec2 : ℝ) /
    (Real.sqrt (sumSq vec1 : ℝ) * Real.sqrt (sumSq vec2 : ℝ))

/-- The inner loop of `create_skill_vector` computing one user-vector
entry: `1.0` on an exact match, else bump to `0.7` on a mutual-substring
match, else keep the accumulator. -/
def user_skill_score (skill : PyStr) (user_skills : List PyStr) : ℚ :=
  user_skills.foldl
    (fun acc us =>
      if skill = us then 1
      else if pyIn skill us || pyIn us skill then max acc 0.7
      else acc)
    0

/-- `JobMatcher.create_skill_vector`.  `list(set(user_skills + job_skills))`
enumerates the union in unspecified set order; we fix the first-occurrence
order (`dedup`), which is one such enumeration — `cosine_similarity` of the
two parallel vectors is invariant under re-enumeration. -/
def create_skill_vector (user_skills job_skills : List PyStr) :
    List ℚ × List ℚ :=
  let all_skills := (user_skills ++ job_skills).dedup
  if all_skills.isEmpty then ([0], [0])
  else
    (all_skills.map (fun sk => user_skill_score sk user_skills),
     all_skills.map (fun sk => if job_skills.contains sk then (1 : ℚ) else 0))

/-- `JobMatcher.calculate_skills_match`. -/
noncomputable def calculate_skills_match (p : UserProfile) (j : Job) : ℝ :=
  let user_skills := p.skills.map pyLower
  let job_requirements :=
    extract_skills_from_text (j.requirements ++ [' '] ++ j.description)
  if user_skills.isEmpty || job_requirements.isEmpty then 0
  else
    let v := create_skill_vector user_skills job_requirements
    min (cosine_similarity v.1 v.2 * 100) 100

/-- The `weights` dict of `calculate_overall_match`. -/
def weights (k : String) : ℚ :=
  if k = "skills" then 0.4
  else if k = "experience" then 0.25
  else if k = "location" then 0.2
  else if k = "salary" then 0.15
  else 0

open Classical in
/-- Python integer `round` (half to even) on a real argument. -/
noncomputable def roundHalfEvenR (x : ℝ) : ℤ :=
  if x - ⌊x⌋ < 1 / 2 then ⌊x⌋
  else if 1 / 2 < x - ⌊x⌋ then ⌊x⌋ + 1
  else if Even ⌊x⌋ then ⌊x⌋ else ⌊x⌋ + 1

/-- Python `round(x, 1)` on a real argument. -/
noncomputable def roundTo1R (x : ℝ) : ℝ := (roundHalfEvenR (10 * x) : ℝ) / 10

/-- The dict returned by `calculate_overall_match`: all five scores,
rounded to one decimal. -/
structure MatchResult where
  overall_score : ℝ
  skills_score : ℝ
  experience_score : ℚ
  location_score : ℚ
  salary_score : ℚ

/-- `JobMatcher.calculate_overall_match`. -/
noncomputable def calculate_overall_match (p : UserProfile) (j : Job) :
    MatchResult :=
  let skills_score := calculate_skills_match p j
  let experience_score := calculate_experience_match p j
  let location_score := calculate_location_match p j
  let salary_score := calculate_salary_match p j
  let overall_score : ℝ :=
    skills_score * (weights "skills" : ℝ) +
    (experience_score : ℝ) * (weights "experience" : ℝ) +
    (location_score : ℝ) * (weights "location" : ℝ) +
    (salary_score : ℝ) * (weights "salary" : ℝ)
  { overall_score := roundTo1R overall_score,
    skills_score := roundTo1R skills_score,
    experience_score := roundTo1 experience_score,
    location_score := roundTo1 location_score,
    salary_score := roundTo1 salary_score }

/-- One entry of the `recommendations` list built by
`get_job_recommendations`. -/
structure Recommendation where
  job : Job
  match_score : ℝ
  skills_match : ℝ
  experience_match : ℚ
  location_match : ℚ
  salary_match : ℚ

/-- The ordering used by `recommendations.sort(key=..., reverse=True)`:
`a` may precede `b` when `b`'s score is at most `a`'s. -/
def recGE (a b : Recommendation) : Prop := b.match_score ≤ a.match_score

noncomputable instance : DecidableRel recGE :=
  fun _ _ => Classical.propDecidable _

instance : IsTotal Recommendation recGE :=
  ⟨fun a b => le_total b.match_score a.match_score⟩

instance : IsTrans Recommendation recGE :=
  ⟨fun _ _ _ hab hbc => le_trans hbc hab⟩

/-- `Job.objects.filter(is_active=True).exclude(id__in=applied_job_ids)`:
the jobs scored by `get_job_recommendations`.  `applied` is the list of
job ids the candidate has applied to. -/
def eligible_jobs (jobs : List Job) (applied : List ℕ) : List Job :=
  (jobs.filter (fun j => j.is_active)).filter
    (fun j => !(applied.contains j.id))

/-- The dict appended to `recommendations` for one job. -/
noncomputable def score_job (p : UserProfile) (j : Job) : Recommendation :=
  let m := calculate_overall_match p j
  ⟨j, m.overall_score, m.skills_score, m.experience_score,
   m.location_score, m.salary_score⟩

/-- The `recommendations` list before sorting, in storage iteration
order. -/
noncomputable def scored_recommendations (p : UserProfile) (jobs : List Job)
    (applied : List ℕ) : List Recommendation :=
  (eligible_jobs jobs applied).map (score_job p)

/-- `recommendations.sort(key=lambda x: x['match_score'], reverse=True)`:
Python's sort is stable, and a stable descending sort is extensionally
unique, so insertion sort under `recGE` computes the same list. -/
noncomputable def sorted_recommendations (p : UserProfile) (jobs : List Job)
    (applied : List ℕ) : List Recommendation :=
  List.insertionSort recGE (scored_recommendations p jobs applied)

/-- Python list slicing `l[:limit]` for an arbitrary (possibly negative)
`int` bound. -/
def pySlice (limit : ℤ) (l : List α) : List α :=
  if 0 ≤ limit then l.take limit.toNat
  else l.take ((l.length : ℤ) + limit).toNat

/-- `JobMatcher.get_job_recommendations`: score the eligible jobs, sort by
descending match score, return `recommendations[:limit]`. -/
noncomputable def get_job_recommendations (p : UserProfile) (jobs : List Job)
    (applied : List ℕ) (limit : ℤ) : List Recommendation :=
  pySlice limit (sorted_recommendations p jobs applied)

/-- Error classes of the spec's taxonomy, identified with the HTTP
statuses the views emit: `validation` = 400, `authorization` = 403,
`notFound` = 404, `conflict` = 409, `server` = an unhandled exception
(500, e.g. a database `IntegrityError`). -/
inductive ApiError where
  | validation
  | authorization
  | notFound
  | conflict
  | server
deriving DecidableEq

/-- Outcome of a view call. -/
inductive ApiResult (α : Type) where
  | ok (a : α)
  | error (e : ApiError)
deriving DecidableEq

/-- The view `JobViewSet.recommendations`: reads `limit` from the query
string and unconditionally returns the engine's list — there is no
validation branch. -/
noncomputable def recommendations_view (p : UserProfile) (jobs : List Job)
    (applied : List ℕ) (limit : ℤ) : ApiResult (List Recommendation) :=
  .ok (get_job_recommendations p jobs applied limit)

/-- `JobApplication` (accounts/models.py), restricted to the columns the
review and submission flows touch.  `scores` packs the five denormalized
match-score columns written by `update_application_scores`; the
profile-snapshot columns are never read by the verified claims and are
omitted. -/
structure Application where
  id : ℕ
  job_id : ℕ
  applicant : ℕ
  status : String
  reviewed_by : Option ℕ
  reviewed_at : Option ℕ
  review_notes : String
  scores : Option MatchResult

/-- `JobViewSet.review_application`: owner check (403), payload check
(400), then `JobApplication.objects.get(id=.., job=job, status='applied')`
— a miss is answered with 404 \x22Application not found or already
reviewed\x22 — and finally the status/reviewer/timestamp/notes update,
saved by primary key.  A falsy `application_id` is modelled as `none`. -/
def review_application (db : List Application) (user : ℕ) (job : Job)
    (application_id : Option ℕ) (act : String) (notes : String) (now : ℕ) :
    ApiResult Unit × List Application :=
  if job.company_owner ≠ user then (.error .authorization, db)
  else
    match application_id with
    | none => (.error .validation, db)
    | some aid =>
      if act ∉ (["accepted", "rejected", "maybe"] : List String) then
        (.error .validation, db)
      else
        match db.find? (fun a =>
            a.id == aid && a.job_id == job.id && a.status == "applied") with
        | none => (.error .notFound, db)
        | some app =>
          let app' := { app with
            status := act, reviewed_by := some user,
            reviewed_at := some now, review_notes := notes }
          (.ok (), db.map (fun a => if a.id = app.id then app' else a))

/-- `JobApplicationView.perform_create`:
`get_object_or_404(Job, id=job_id)` — with no `is_active` filter — then
`update_experience_years`, then the insert.  The
`unique_together ('job', 'applicant')` constraint makes a duplicate
insert fail with a database `IntegrityError`, which no code catches
(`server`).  On success the saved row gets `status='applied'` and the
scores written by `update_application_scores`. -/
noncomputable def perform_create (jobs : List Job) (db : List Application)
    (user : ℕ) (p : UserProfile) (job_id : ℕ) (new_id : ℕ) :
    ApiResult Unit × List Application :=
  match jobs.find? (fun j => j.id == job_id) with
  | none => (.error .notFound, db)
  | some job =>
    let p' := update_experience_years p
    if db.any (fun a => a.job_id == job.id && a.applicant == user) then
      (.error .server, db)
    else
      (.ok (), db ++ [{ id := new_id, job_id := job.id, applicant := user,
                        status := "applied", reviewed_by := none,
                        reviewed_at := none, review_notes := "",
                        scores := some (calculate_overall_match p' job) }])

/-- At most one application per `(job, applicant)` pair: the
`unique_together` invariant. -/
def uniquePairs (db : List Application) : Prop :=
  db.Pairwise (fun a b => ¬(a.job_id = b.job_id ∧ a.applicant = b.applicant))

/-! ### Concrete instances used by witnesses and counterexamples -/

/-- A profile with every optional matching field absent. -/
def pNeutral : UserProfile := ⟨0, [], none, none, none, none, [], none⟩

/-- A plain active job with no salary information. -/
def jPlain : Job := ⟨1, 1, [], [], "entry", [], none, none, false, true⟩

/-- Candidate asking at least 100 with no stated maximum. -/
def pCex1 : UserProfile := ⟨1, [], none, none, some 100, none, [], none⟩

/-- A job whose (unvalidated) maximum salary is negative. -/
def jCex1 : Job := ⟨1, 1, [], [], "entry", [], none, some (-50), false, true⟩

/-- Candidate with exactly 5 stored years of experience. -/
def pW2 : UserProfile := ⟨2, [], some 5, none, none, none, [], none⟩

/-- A senior-level job. -/
def jW2 : Job := ⟨2, 1, [], [], "senior", [], none, none, false, true⟩

/-- Candidate of spec scenario A: python/django skills, 3 years, remote
preference, salary 900–1000. -/
def pW4 : UserProfile :=
  ⟨4, [pystr "python"], some 3, none, some 900, some 1000, [],
   some "remote"⟩

/-- Remote mid-level python job paying 800–1200. -/
def jW4 : Job :=
  ⟨4, 1, [], pystr "python", "mid", pystr "remote", some 800, some 1200,
   true, true⟩

/-- Candidate asking at least 200. -/
def pSal : UserProfile := ⟨3, [], none, none, some 200, none, [], none⟩

/-- A job paying at most 100. -/
def jSal : Job := ⟨3, 1, [], [], "entry", [], none, some 100, false, true⟩

/-- A job owned by user 42, used by the review-flow results. -/
def jobR : Job := ⟨10, 42, [], [], "mid", [], none, none, false, true⟩

/-- An application to `jobR` already triaged to `accepted`. -/
def appAccepted : Application := ⟨5, 10, 7, "accepted", none, none, "", none⟩

/-- Review-flow database holding only `appAccepted`. -/
def dbR : List Application := [appAccepted]

/-- A job owned by user 42, used by the submission-flow results. -/
def jobA : Job := ⟨11, 42, [], [], "mid", [], none, none, false, true⟩

/-- An existing application of user 7 to `jobA`. -/
def appDup : Application := ⟨6, 11, 7, "applied", none, none, "", none⟩

/-- Submission-flow database holding only `appDup`. -/
def dbA : List Application := [appDup]

/-- An inactive job. -/
def jobInactive : Job := ⟨12, 42, [], [], "mid", [], none, none, false, false⟩

/-! ### Rounding lemmas -/

lemma roundHalfEven_nonneg {x : ℚ} (hx : 0 ≤ x) : 0 ≤ roundHalfEven x := by
  unfold roundHalfEven
  have h0 : (0 : ℤ) ≤ ⌊x⌋ := Int.floor_nonneg.mpr hx
  split_ifs <;> omega

lemma roundHalfEven_le {x : ℚ} {n : ℤ} (hx : x ≤ n) : roundHalfEven x ≤ n := by
  unfold roundHalfEven
  have hfl : (⌊x⌋ : ℚ) ≤ x := Int.floor_le x
  have h1 : ⌊x⌋ ≤ n := by simpa using Int.floor_le_floor hx
  split_ifs with h2 h3 h4
  · exact h1
  · have hhalf : (1 : ℚ) / 2 ≤ x - ⌊x⌋ := le_of_not_lt h2
    have : (⌊x⌋ : ℚ) < (n : ℚ) := by linarith
    have := Int.cast_lt.mp this
    omega
  · exact h1
  · have hhalf : (1 : ℚ) / 2 ≤ x - ⌊x⌋ := le_of_not_lt h2
    have : (⌊x⌋ : ℚ) < (n : ℚ) := by linarith
    have := Int.cast_lt.mp this
    omega

lemma roundTo1_bounds {x : ℚ} (h0 : 0 ≤ x) (h1 : x ≤ 100) :
    0 ≤ roundTo1 x ∧ roundTo1 x ≤ 100 := by
  unfold roundTo1
  have hn : (0 : ℤ) ≤ roundHalfEven (10 * x) :=
    roundHalfEven_nonneg (by linarith)
  have hle : roundHalfEven (10 * x) ≤ (1000 : ℤ) :=
    roundHalfEven_le (by push_cast; linarith)
  constructor
  · have : (0 : ℚ) ≤ (roundHalfEven (10 * x) : ℚ) := by exact_mod_cast hn
    linarith
  · have : (roundHalfEven (10 * x) : ℚ) ≤ 1000 := by exact_mod_cast hle
    linarith

lemma roundHalfEvenR_nonneg {x : ℝ} (hx : 0 ≤ x) : 0 ≤ roundHalfEvenR x := by
  unfold roundHalfEvenR
  have h0 : (0 : ℤ) ≤ ⌊x⌋ := Int.floor_nonneg.mpr hx
  split_ifs <;> omega

lemma roundHalfEvenR_le {x : ℝ} {n : ℤ} (hx : x ≤ n) : roundHalfEvenR x ≤ n := by
  unfold roundHalfEvenR
  have hfl : (⌊x⌋ : ℝ) ≤ x := Int.floor_le x
  have h1 : ⌊x⌋ ≤ n := by simpa using Int.floor_le_floor hx
  split_ifs with h2 h3 h4
  · exact h1
  · have hhalf : (1 : ℝ) / 2 ≤ x - ⌊x⌋ := le_of_not_lt h2
    have : (⌊x⌋ : ℝ) < (n : ℝ) := by linarith
    have := Int.cast_lt.mp this
    omega
  · exact h1
  · have hhalf : (1 : ℝ) / 2 ≤ x - ⌊x⌋ := le_of_not_lt h2
    have : (⌊x⌋ : ℝ) < (n : ℝ) := by linarith
    have := Int.cast_lt.mp this
    omega

lemma roundTo1R_bounds {x : ℝ} (h0 : 0 ≤ x) (h1 : x ≤ 100) :
    0 ≤ roundTo1R x ∧ roundTo1R x ≤ 100 := by
  unfold roundTo1R
  have hn : (0 : ℤ) ≤ roundHalfEvenR (10 * x) :=
    roundHalfEvenR_nonneg (by linarith)
  have hle : roundHalfEvenR (10 * x) ≤ (1000 : ℤ) :=
    roundHalfEvenR_le (by push_cast; linarith)
  constructor
  · have : (0 : ℝ) ≤ (roundHalfEvenR (10 * x) : ℝ) := by exact_mod_cast hn
    linarith
  · have : (roundHalfEvenR (10 * x) : ℝ) ≤ 1000 := by exact_mod_cast hle
    linarith

lemma abs_roundHalfEvenR_sub_le (x : ℝ) :
    |(roundHalfEvenR x : ℝ) - x| ≤ 1 / 2 := by
  unfold roundHalfEvenR
  have hfl : (⌊x⌋ : ℝ) ≤ x := Int.floor_le x
  have hlt : x < ⌊x⌋ + 1 := Int.lt_floor_add_one x
  split_ifs with h2 h3 h4 <;> rw [abs_le] <;> constructor <;> push_cast <;>
    linarith

lemma roundTo1R_close (x : ℝ) : |roundTo1R x - x| ≤ 1 / 20 := by
  unfold roundTo1R
  have h := abs_roundHalfEvenR_sub_le (10 * x)
  have heq : (roundHalfEvenR (10 * x) : ℝ) / 10 - x =
      ((roundHalfEvenR (10 * x) : ℝ) - 10 * x) / 10 := by ring
  rw [heq, abs_div]
  have h10 : |(10 : ℝ)| = 10 := by norm_num
  rw [h10]
  linarith

/-! ### Bounds of the four feature scorers -/

lemma calculate_experience_match_bounds (p : UserProfile) (j : Job) :
    0 ≤ calculate_experience_match p j ∧ calculate_experience_match p j ≤ 100 := by
  unfold calculate_experience_match
  rcases hmap : experience_mapping j.experience_level with _ | ⟨mn, _ | mxq⟩ <;>
    simp only [hmap]
  · norm_num
  · split_ifs with h1 h2
    · norm_num
    · refine ⟨le_max_left 0 _, ?_⟩
      have hy : get_current_experience_years p < mn := h2
      refine max_le (by norm_num) ?_
      nlinarith
    · norm_num
  · split_ifs with h1 h2
    · norm_num
    · refine ⟨le_max_left 0 _, ?_⟩
      have hy : get_current_experience_years p < mn := h2
      refine max_le (by norm_num) ?_
      nlinarith
    · have hmn : mn ≤ get_current_experience_years p := le_of_not_lt h2
      have hup : ¬(leUpper (get_current_experience_years p) (some mxq) = true) :=
        fun hc => h1 ⟨hmn, hc⟩
      have hgt : mxq < get_current_experience_years p := by
        simp only [leUpper, decide_eq_true_eq] at hup
        exact lt_of_not_le hup
      constructor
      · exact le_trans (by norm_num) (le_max_left 70 _)
      · refine max_le (by norm_num) ?_
        nlinarith

lemma calculate_location_match_bounds (p : UserProfile) (j : Job) :
    0 ≤ calculate_location_match p j ∧ calculate_location_match p j ≤ 100 := by
  simp only [calculate_location_match]
  split_ifs <;> norm_num

lemma falsyQ_eq_false {o : Option ℚ} (h : falsyQ o = false) :
    ∃ m, o = some m ∧ m ≠ 0 := by
  rcases o with _ | m
  · simp [falsyQ] at h
  · refine ⟨m, rfl, ?_⟩
    simpa [falsyQ] using h

lemma overlap_case_bounds {ostart oend urange : ℚ} (hov : ostart ≤ oend)
    (hrg : 0 < urange) :
    0 ≤ min 100 (80 + (oend - ostart) / urange * 100 * 0.2) ∧
    min 100 (80 + (oend - ostart) / urange * 100 * 0.2) ≤ 100 := by
  constructor
  · refine le_min (by norm_num) ?_
    have hq := div_nonneg (sub_nonneg.mpr hov) (le_of_lt hrg)
    nlinarith [hq]
  · exact min_le_left _ _

lemma gap_case_bounds {umin jmax : ℚ} (hpos : 0 < jmax) (hlt : jmax < umin) :
    0 ≤ max 20 (80 - (umin - jmax) / jmax * 100) ∧
    max 20 (80 - (umin - jmax) / jmax * 100) ≤ 100 := by
  have hgap : 0 < (umin - jmax) / jmax * 100 :=
    mul_pos (div_pos (by linarith) hpos) (by norm_num)
  exact ⟨le_trans (by norm_num) (le_max_left 20 _),
         max_le (by norm_num) (by linarith)⟩

lemma calculate_salary_match_bounds (p : UserProfile) (j : Job)
    (h : ∀ m, j.salary_max = some m → 0 ≤ m) :
    0 ≤ calculate_salary_match p j ∧ calculate_salary_match p j ≤ 100 := by
  simp only [calculate_salary_match]
  by_cases h1 : (falsyQ p.preferred_salary_min || falsyQ j.salary_max) = true
  · rw [if_pos h1]; norm_num
  · rw [if_neg h1]
    have hmax : falsyQ j.salary_max = false := by
      simp only [Bool.or_eq_true, not_or, Bool.not_eq_true] at h1
      exact h1.2
    obtain ⟨m, hm, hm0⟩ := falsyQ_eq_false hmax
    have hpos : 0 < j.salary_max.getD 0 := by
      rw [hm]
      simp only [Option.getD_some]
      exact lt_of_le_of_ne (h m hm) (Ne.symm hm0)
    split_ifs <;>
      first
        | (norm_num; done)
        | (with_reducible exact overlap_case_bounds (by assumption) (by assumption))
        | (with_reducible exact gap_case_bounds hpos (by assumption))

lemma dotQ_nonneg :
    ∀ (v1 v2 : List ℚ), (∀ x ∈ v1, 0 ≤ x) → (∀ x ∈ v2, 0 ≤ x) →
      0 ≤ dotQ v1 v2
  | [], _, _, _ => by simp [dotQ]
  | _ :: _, [], _, _ => by simp [dotQ]
  | a :: t1, b :: t2, h1, h2 => by
    have ha := h1 a (List.mem_cons_self _ _)
    have hb := h2 b (List.mem_cons_self _ _)
    have ih := dotQ_nonneg t1 t2
      (fun x hx => h1 x (List.mem_cons_of_mem _ hx))
      (fun x hx => h2 x (List.mem_cons_of_mem _ hx))
    have hab := mul_nonneg ha hb
    simp only [dotQ, List.zipWith_cons_cons, List.sum_cons] at ih ⊢
    linarith

lemma cosine_similarity_nonneg (v1 v2 : List ℚ)
    (h1 : ∀ x ∈ v1, 0 ≤ x) (h2 : ∀ x ∈ v2, 0 ≤ x) :
    0 ≤ cosine_similarity v1 v2 := by
  unfold cosine_similarity
  split_ifs
  · norm_num
  · norm_num
  · refine div_nonneg ?_ (mul_nonneg (Real.sqrt_nonneg _) (Real.sqrt_nonneg _))
    exact_mod_cast dotQ_nonneg v1 v2 h1 h2

lemma user_skill_score_nonneg (skill : PyStr) (user_skills : List PyStr) :
    0 ≤ user_skill_score skill user_skills := by
  unfold user_skill_score
  suffices h : ∀ (l : List PyStr) (acc : ℚ), 0 ≤ acc →
      0 ≤ l.foldl (fun acc us =>
        if skill = us then 1
        else if pyIn skill us || pyIn us skill then max acc 0.7
        else acc) acc from h user_skills 0 le_rfl
  intro l
  induction l with
  | nil => intro acc hacc; simpa using hacc
  | cons us t ih =>
    intro acc hacc
    simp only [List.foldl_cons]
    apply ih
    split_ifs
    · norm_num
    · exact le_trans (by norm_num) (le_max_right acc 0.7)
    · exact hacc

lemma create_skill_vector_fst_nonneg (u jr : List PyStr) :
    ∀ x ∈ (create_skill_vector u jr).1, 0 ≤ x := by
  simp only [create_skill_vector]
  split_ifs
  · intro x hx
    simp only at hx
    rcases List.mem_singleton.mp hx with rfl
    norm_num
  · intro x hx
    simp only at hx
    rcases List.mem_map.mp hx with ⟨sk, _, rfl⟩
    exact user_skill_score_nonneg sk u

lemma create_skill_vector_snd_nonneg (u jr : List PyStr) :
    ∀ x ∈ (create_skill_vector u jr).2, 0 ≤ x := by
  simp only [create_skill_vector]
  split_ifs
  · intro x hx
    simp only at hx
    rcases List.mem_singleton.mp hx with rfl
    norm_num
  · intro x hx
    simp only at hx
    rcases List.mem_map.mp hx with ⟨sk, _, rfl⟩
    split_ifs <;> norm_num

lemma calculate_skills_match_bounds (p : UserProfile) (j : Job) :
    0 ≤ calculate_skills_match p j ∧ calculate_skills_match p j ≤ 100 := by
  simp only [calculate_skills_match]
  split_ifs
  · norm_num
  · constructor
    · refine le_min ?_ (by norm_num)
      refine mul_nonneg ?_ (by norm_num)
      exact cosine_similarity_nonneg _ _
        (create_skill_vector_fst_nonneg _ _)
        (create_skill_vector_snd_nonneg _ _)
    · exact min_le_right _ _

lemma weightsR_skills : ((weights "skills" : ℚ) : ℝ) = 0.4 := by
  norm_num [show weights "skills" = 0.4 from rfl]

lemma weightsR_experience : ((weights "experience" : ℚ) : ℝ) = 0.25 := by
  norm_num [show weights "experience" = 0.25 from rfl]

lemma weightsR_location : ((weights "location" : ℚ) : ℝ) = 0.2 := by
  norm_num [show weights "location" = 0.2 from rfl]

lemma weightsR_salary : ((weights "salary" : ℚ) : ℝ) = 0.15 := by
  norm_num [show weights "salary" = 0.15 from rfl]

lemma experience_match_cases (p : UserProfile) (j : Job) (mn mxq : ℚ)
    (hmn : mn ≤ mxq)
    (hmap : experience_mapping j.experience_level = some (mn, some mxq)) :
    ((mn ≤ get_current_experience_years p ∧
        get_current_experience_years p ≤ mxq) →
      calculate_experience_match p j = 100) ∧
    (get_current_experience_years p < mn →
      calculate_experience_match p j =
        max 0 (100 - (mn - get_current_experience_years p) * 20)) ∧
    (mxq < get_current_experience_years p →
      calculate_experience_match p j =
        max 70 (100 - (get_current_experience_years p - mxq) * 5)) := by
  unfold calculate_experience_match
  simp only [hmap]
  refine ⟨?_, ?_, ?_⟩
  · rintro ⟨ha, hb⟩
    rw [if_pos ⟨ha, by simp [leUpper, hb]⟩]
  · intro hlt
    rw [if_neg, if_pos hlt]
    rintro ⟨ha, -⟩
    exact absurd hlt (not_lt.mpr ha)
  · intro hgt
    have hnot1 : ¬(mn ≤ get_current_experience_years p ∧
        leUpper (get_current_experience_years p) (some mxq) = true) := by
      rintro ⟨-, hb⟩
      simp only [leUpper, decide_eq_true_eq] at hb
      exact absurd hb (not_le.mpr hgt)
    have hnot2 : ¬(get_current_experience_years p < mn) :=
      not_lt.mpr (le_trans hmn (le_of_lt hgt))
    rw [if_neg hnot1, if_neg hnot2]

lemma experience_match_cases_top (p : UserProfile) (j : Job) (mn : ℚ)
    (hmap : experience_mapping j.experience_level = some (mn, none)) :
    (mn ≤ get_current_experience_years p →
      calculate_experience_match p j = 100) ∧
    (get_current_experience_years p < mn →
      calculate_experience_match p j =
        max 0 (100 - (mn - get_current_experience_years p) * 20)) := by
  unfold calculate_experience_match
  simp only [hmap]
  constructor
  · intro ha
    rw [if_pos ⟨ha, by simp [leUpper]⟩]
  · intro hlt
    rw [if_neg, if_pos hlt]
    rintro ⟨ha, -⟩
    exact absurd hlt (not_lt.mpr ha)

lemma experience_match_default (p : UserProfile) (j : Job)
    (hmap : experience_mapping j.experience_level = none) :
    calculate_experience_match p j = 50 := by
  unfold calculate_experience_match
  simp only [hmap]

/-- C2: for every profile and every job whose experience-level tag is one
of entry=[0,2], mid=[2,5], senior=[5,10], executive=[10,∞): years within
[min,max] inclusive score exactly 100; below min the score is
max(0, 100 − 20×(min − years)); above max it is
max(70, 100 − 5×(years − max)); any unrecognized tag scores 50. -/
theorem C2_experience_match_formula (p : UserProfile) (j : Job) :
    (j.experience_level = "entry" →
      ((0 ≤ get_current_experience_years p ∧
          get_current_experience_years p ≤ 2) →
        calculate_experience_match p j = 100) ∧
      (get_current_experience_years p < 0 →
        calculate_experience_match p j =
          max 0 (100 - (0 - get_current_experience_years p) * 20)) ∧
      (2 < get_current_experience_years p →
        calculate_experience_match p j =
          max 70 (100 - (get_current_experience_years p - 2) * 5))) ∧
    (j.experience_level = "mid" →
      ((2 ≤ get_current_experience_years p ∧
          get_current_experience_years p ≤ 5) →
        calculate_experience_match p j = 100) ∧
      (get_current_experience_years p < 2 →
        calculate_experience_match p j =
          max 0 (100 - (2 - get_current_experience_years p) * 20)) ∧
      (5 < get_current_experience_years p →
        calculate_experience_match p j =
          max 70 (100 - (get_current_experience_years p - 5) * 5))) ∧
    (j.experience_level = "senior" →
      ((5 ≤ get_current_experience_years p ∧
          get_current_experience_years p ≤ 10) →
        calculate_experience_match p j = 100) ∧
      (get_current_experience_years p < 5 →
        calculate_experience_match p j =
          max 0 (100 - (5 - get_current_experience_years p) * 20)) ∧
      (10 < get_current_experience_years p →
        calculate_experience_match p j =
          max 70 (100 - (get_current_experience_years p - 10) * 5))) ∧
    (j.experience_level = "executive" →
      (10 ≤ get_current_experience_years p →
        calculate_experience_match p j = 100) ∧
      (get_current_experience_years p < 10 →
        calculate_experience_match p j =
          max 0 (100 - (10 - get_current_experience_years p) * 20))) ∧
    (j.experience_level ∉ (["entry", "mid", "senior", "executive"] : List String) →
      calculate_experience_match p j = 50) := by
  refine ⟨?_, ?_, ?_, ?_, ?_⟩
  · intro heq
    exact experience_match_cases p j 0 2 (by norm_num) (by rw [heq]; rfl)
  · intro heq
    exact experience_match_cases p j 2 5 (by norm_num) (by rw [heq]; rfl)
  · intro heq
    exact experience_match_cases p j 5 10 (by norm_num) (by rw [heq]; rfl)
  · intro heq
    exact experience_match_cases_top p j 10 (by rw [heq]; rfl)
  · intro hmem
    apply experience_match_default
    have h1 : ¬(j.experience_level = "entry") := by
      intro hc; exact hmem (by simp [hc])
    have h2 : ¬(j.experience_level = "mid") := by
      intro hc; exact hmem (by simp [hc])
    have h3 : ¬(j.experience_level = "senior") := by
      intro hc; exact hmem (by simp [hc])
    have h4 : ¬(j.experience_level = "executive") := by
      intro hc; exact hmem (by simp [hc])
    unfold experience_mapping
    rw [if_neg h1, if_neg h2, if_neg h3, if_neg h4]

/-- Witness for C2: a 5-year candidate on a senior job (the lower boundary
of [5,10]) scores exactly 100. -/
theorem C2_witness : calculate_experience_match pW2 jW2 = 100 := by
  have hy : get_current_experience_years pW2 = 5 := by
    simp [get_current_experience_years, pW2]
  exact ((C2_experience_match_formula pW2 jW2).2.2.1 rfl).1
    ⟨by norm_num [hy], by norm_num [hy]⟩

/-- C10 (amended): a zero or missing candidate minimum or job maximum is
answered with the neutral 75 before any arithmetic; on every path that
reaches the division by `job_max`, `job_max` is nonzero — so the division
by zero is unreachable — and it is strictly positive whenever the stored
job maximum is nonnegative (the stored value is not validated, so it can
be negative). -/
theorem C10_salary_guard : (∀ (p : UserProfile) (j : Job),
      (p.preferred_salary_min = none ∨ p.preferred_salary_min = some 0 ∨
       j.salary_max = none ∨ j.salary_max = some 0) →
      calculate_salary_match p j = 75) ∧
    (∀ (p : UserProfile) (j : Job), salary_division_path p j →
      j.salary_max.getD 0 ≠ 0) ∧
    (∀ (p : UserProfile) (j : Job), salary_division_path p j →
      (∀ m, j.salary_max = some m → 0 ≤ m) → 0 < j.salary_max.getD 0) := by
  refine ⟨?_, ?_, ?_⟩
  · intro p j h
    have hc : (falsyQ p.preferred_salary_min || falsyQ j.salary_max) = true := by
      rcases h with h | h | h | h <;> simp [falsyQ, h]
    unfold calculate_salary_match
    rw [if_pos hc]
  · intro p j hpath
    obtain ⟨-, h2, -⟩ := hpath
    obtain ⟨m, hm, hm0⟩ := falsyQ_eq_false h2
    rw [hm]
    simpa using hm0
  · intro p j hpath h
    obtain ⟨-, h2, -⟩ := hpath
    obtain ⟨m, hm, hm0⟩ := falsyQ_eq_false h2
    rw [hm]
    simpa using lt_of_le_of_ne (h m hm) (Ne.symm hm0)

/-- Counterexample for C10 as stated: with candidate minimum 100 and job
maximum −50 the division branch is reached while `job_max` is negative,
not strictly positive. -/
theorem C10_counterexample :
    salary_division_path pCex1 jCex1 ∧ jCex1.salary_max.getD 0 = -50 ∧
    ¬(0 < jCex1.salary_max.getD 0) := by
  refine ⟨?_, by norm_num [jCex1], by norm_num [jCex1]⟩
  norm_num [salary_division_path, pCex1, jCex1, falsyQ, min_def, max_def]

/-- Witness for C10: the zero/missing guard answers 75, and on a division
path with a nonnegative stored maximum the divisor is positive. -/
theorem C10_witness :
    calculate_salary_match pNeutral jPlain = 75 ∧
    0 < jSal.salary_max.getD 0 := by
  constructor
  · exact C10_salary_guard.1 pNeutral jPlain (Or.inl rfl)
  · refine C10_salary_guard.2.2 pSal jSal ?_ ?_
    · norm_num [salary_division_path, pSal, jSal, falsyQ, min_def, max_def]
    · intro m hm
      injection hm with h
      rw [← h]
      norm_num

/-- C1 (amended): all four sub-scores and the overall score returned by
`calculate_overall_match` lie in [0,100] for every profile and every job
whose stored maximum salary, when present, is nonnegative (empty or
missing optional fields included); a negative stored `salary_max` can push
the salary score above 100 (see the counterexample). -/
theorem C1_score_bounds (p : UserProfile) (j : Job)
    (h : ∀ m, j.salary_max = some m → 0 ≤ m) :
    (0 ≤ (calculate_overall_match p j).skills_score ∧
      (calculate_overall_match p j).skills_score ≤ 100) ∧
    (0 ≤ (calculate_overall_match p j).experience_score ∧
      (calculate_overall_match p j).experience_score ≤ 100) ∧
    (0 ≤ (calculate_overall_match p j).location_score ∧
      (calculate_overall_match p j).location_score ≤ 100) ∧
    (0 ≤ (calculate_overall_match p j).salary_score ∧
      (calculate_overall_match p j).salary_score ≤ 100) ∧
    (0 ≤ (calculate_overall_match p j).overall_score ∧
      (calculate_overall_match p j).overall_score ≤ 100) := by
  obtain ⟨hs0, hs1⟩ := calculate_skills_match_bounds p j
  obtain ⟨he0, he1⟩ := calculate_experience_match_bounds p j
  obtain ⟨hl0, hl1⟩ := calculate_location_match_bounds p j
  obtain ⟨ha0, ha1⟩ := calculate_salary_match_bounds p j h
  have he0R : (0 : ℝ) ≤ (calculate_experience_match p j : ℝ) := by
    exact_mod_cast he0
  have he1R : (calculate_experience_match p j : ℝ) ≤ 100 := by
    exact_mod_cast he1
  have hl0R : (0 : ℝ) ≤ (calculate_location_match p j : ℝ) := by
    exact_mod_cast hl0
  have hl1R : (calculate_location_match p j : ℝ) ≤ 100 := by
    exact_mod_cast hl1
  have ha0R : (0 : ℝ) ≤ (calculate_salary_match p j : ℝ) := by
    exact_mod_cast ha0
  have ha1R : (calculate_salary_match p j : ℝ) ≤ 100 := by
    exact_mod_cast ha1
  have hw1 := weightsR_skills
  have hw2 := weightsR_experience
  have hw3 := weightsR_location
  have hw4 := weightsR_salary
  simp only [calculate_overall_match]
  refine ⟨roundTo1R_bounds hs0 hs1, roundTo1_bounds he0 he1,
    roundTo1_bounds hl0 hl1, roundTo1_bounds ha0 ha1, ?_⟩
  refine roundTo1R_bounds ?_ ?_
  · rw [hw1, hw2, hw3, hw4]
    nlinarith [hs0, he0R, hl0R, ha0R]
  · rw [hw1, hw2, hw3, hw4]
    nlinarith [hs1, he1R, hl1R, ha1R, hs0, he0R, hl0R, ha0R]

/-- Counterexample for C1 as stated: with candidate minimum 100 and a job
whose stored maximum salary is −50, the salary sub-score returned by
`calculate_overall_match` is 380, far outside [0,100]. -/
theorem C1_counterexample :
    (calculate_overall_match pCex1 jCex1).salary_score = 380 ∧
    ¬((calculate_overall_match pCex1 jCex1).salary_score ≤ 100) := by
  have hproj : (calculate_overall_match pCex1 jCex1).salary_score =
      roundTo1 (calculate_salary_match pCex1 jCex1) := by
    simp only [calculate_overall_match]
  have hs : calculate_salary_match pCex1 jCex1 = 380 := by
    norm_num [calculate_salary_match, pCex1, jCex1, falsyQ, min_def, max_def]
  have hfloor : ⌊(3800 : ℚ)⌋ = 3800 := by
    exact_mod_cast Int.floor_intCast (α := ℚ) 3800
  have h38 : (10 : ℚ) * 380 = 3800 := by norm_num
  have hr : roundTo1 380 = 380 := by
    unfold roundTo1 roundHalfEven
    rw [h38, hfloor]
    norm_num
  have : (calculate_overall_match pCex1 jCex1).salary_score = 380 := by
    rw [hproj, hs, hr]
  exact ⟨this, by rw [this]; norm_num⟩

/-- Witness for C1: for the all-empty profile and a job with no salary
data, the overall score is within [0,100]. -/
theorem C1_witness :
    0 ≤ (calculate_overall_match pNeutral jPlain).overall_score ∧
    (calculate_overall_match pNeutral jPlain).overall_score ≤ 100 := by
  have h := C1_score_bounds pNeutral jPlain (by intro m hm; simp [jPlain] at hm)
  exact h.2.2.2.2

/-- C4: the four aggregation weights (skills 0.40, experience 0.25,
location 0.20, salary 0.15) sum to exactly 1, and for every profile/job
pair whose four sub-scores all equal the same value X, the overall score
is X within rounding to one decimal (it equals `round(X, 1)`, which is
within 1/20 of X). -/
theorem C4_weights_and_aggregation :
    (weights "skills" + weights "experience" + weights "location" +
      weights "salary" = 1) ∧
    (∀ (p : UserProfile) (j : Job) (X : ℝ),
      calculate_skills_match p j = X →
      (calculate_experience_match p j : ℝ) = X →
      (calculate_location_match p j : ℝ) = X →
      (calculate_salary_match p j : ℝ) = X →
      (calculate_overall_match p j).overall_score = roundTo1R X ∧
      |(calculate_overall_match p j).overall_score - X| ≤ 1 / 20) := by
  constructor
  · rw [show weights "skills" = 0.4 from rfl,
        show weights "experience" = 0.25 from rfl,
        show weights "location" = 0.2 from rfl,
        show weights "salary" = 0.15 from rfl]
    norm_num
  · intro p j X h1 h2 h3 h4
    have hov : (calculate_overall_match p j).overall_score = roundTo1R X := by
      simp only [calculate_overall_match]
      rw [h1, h2, h3, h4, weightsR_skills, weightsR_experience,
        weightsR_location, weightsR_salary]
      congr 1
      ring
    refine ⟨hov, ?_⟩
    rw [hov]
    exact roundTo1R_close X

/-- Witness for C4: spec scenario A, where all four sub-scores are
exactly 100 and so is the overall score up to rounding. -/
theorem C4_witness :
    (calculate_overall_match pW4 jW4).overall_score = roundTo1R 100 ∧
    |(calculate_overall_match pW4 jW4).overall_score - 100| ≤ 1 / 20 := by
  have hy : get_current_experience_years pW4 = 3 := by
    simp [get_current_experience_years, pW4]
  have hexp : calculate_experience_match pW4 jW4 = 100 := by
    unfold calculate_experience_match
    rw [show experience_mapping jW4.experience_level = some (2, some 5) from rfl]
    dsimp only
    rw [if_pos ⟨by rw [hy]; norm_num, by rw [hy]; norm_num [leUpper]⟩]
  have hloc : calculate_location_match pW4 jW4 = 100 := by
    simp [calculate_location_match, pW4, jW4]
  have hsal : calculate_salary_match pW4 jW4 = 100 := by
    norm_num [calculate_salary_match, pW4, jW4, falsyQ, min_def, max_def]
  have hskill : calculate_skills_match pW4 jW4 = 100 := by
    have e1 : pW4.skills.map pyLower = [pystr "python"] := by decide
    have e2 : extract_skills_from_text
        (jW4.requirements ++ [' '] ++ jW4.description) = [pystr "python"] := by
      decide
    have e3 : create_skill_vector [pystr "python"] [pystr "python"] =
        ([1], [1]) := by decide
    simp only [calculate_skills_match, e1, e2, e3]
    norm_num [cosine_similarity, dotQ, sumSq, Real.sqrt_one, min_def]
  exact C4_weights_and_aggregation.2 pW4 jW4 100 hskill
    (by rw [hexp]; norm_num) (by rw [hloc]; norm_num) (by rw [hsal]; norm_num)

lemma sorted_recommendations_sorted (p : UserProfile) (jobs : List Job)
    (applied : List ℕ) :
    (sorted_recommendations p jobs applied).Sorted recGE := by
  unfold sorted_recommendations
  exact List.sorted_insertionSort recGE _

lemma mem_scored_recommendations {p : UserProfile} {jobs : List Job}
    {applied : List ℕ} {r : Recommendation}
    (hr : r ∈ scored_recommendations p jobs applied) :
    r.job.is_active = true ∧ r.job.id ∉ applied := by
  unfold scored_recommendations at hr
  rcases List.mem_map.mp hr with ⟨j, hj, rfl⟩
  unfold eligible_jobs at hj
  rcases List.mem_filter.mp hj with ⟨hj2, hcon⟩
  rcases List.mem_filter.mp hj2 with ⟨-, hactive⟩
  simp only [score_job]
  constructor
  · exact hactive
  · simpa using hcon

/-- C3 (amended): for every profile and every nonnegative limit,
`get_job_recommendations` returns at most `limit` entries, containing only
active jobs the candidate has not applied to, sorted in descending order
of overall match score, with ties kept in the pre-sort iteration order
(insertion order survives sorting); a negative limit instead slices from
the end, Python-style (see the counterexample). -/
theorem C3_recommendations_spec (p : UserProfile) (jobs : List Job)
    (applied : List ℕ) (limit : ℤ) (hlim : 0 ≤ limit) :
    ((get_job_recommendations p jobs applied limit).length : ℤ) ≤ limit ∧
    (∀ r ∈ get_job_recommendations p jobs applied limit,
      r.job.is_active = true ∧ r.job.id ∉ applied) ∧
    (get_job_recommendations p jobs applied limit).Sorted recGE ∧
    (∀ a b : Recommendation, a.match_score = b.match_score →
      List.Sublist [a, b] (scored_recommendations p jobs applied) →
      List.Sublist [a, b] (sorted_recommendations p jobs applied)) := by
  have hslice : get_job_recommendations p jobs applied limit =
      (sorted_recommendations p jobs applied).take limit.toNat := by
    unfold get_job_recommendations pySlice
    rw [if_pos hlim]
  refine ⟨?_, ?_, ?_, ?_⟩
  · rw [hslice]
    have h1 : ((sorted_recommendations p jobs applied).take limit.toNat).length
        ≤ limit.toNat := by
      rw [List.length_take]
      exact min_le_left _ _
    have h2 : (((sorted_recommendations p jobs applied).take limit.toNat).length : ℤ)
        ≤ (limit.toNat : ℤ) := by exact_mod_cast h1
    rwa [Int.toNat_of_nonneg hlim] at h2
  · intro r hr
    rw [hslice] at hr
    have hr2 : r ∈ sorted_recommendations p jobs applied :=
      List.take_subset _ _ hr
    have hr3 : r ∈ scored_recommendations p jobs applied := by
      unfold sorted_recommendations at hr2
      exact (List.mem_insertionSort recGE).mp hr2
    exact mem_scored_recommendations hr3
  · rw [hslice]
    exact List.Pairwise.sublist (List.take_sublist _ _)
      (sorted_recommendations_sorted p jobs applied)
  · intro a b hab hsub
    unfold sorted_recommendations
    exact List.pair_sublist_insertionSort
      (show recGE a b from le_of_eq hab.symm) hsub

/-- Counterexample for C3 as stated: for limit −1 (an `int` the view
passes straight through) the result of slicing one scored job is the
empty list, whose length 0 is not at most −1. -/
theorem C3_counterexample :
    ¬(((get_job_recommendations pNeutral [jPlain] [] (-1)).length : ℤ) ≤ -1) := by
  have h : get_job_recommendations pNeutral [jPlain] [] (-1) = [] := rfl
  rw [h]
  decide

/-- Witness for C3: the amended statement applied at limit 3. -/
theorem C3_witness :
    ((get_job_recommendations pNeutral [jPlain] [] 3).length : ℤ) ≤ 3 :=
  (C3_recommendations_spec pNeutral [jPlain] [] 3 (by norm_num)).1

/-- C5: normalization replaces `+` by a space before the token pass, so
the `\w+\+\+$` pattern can never match — a text containing the token
`c++` yields no extracted skill at all (here, the empty list), while the
js/py/sql suffix tokens are extracted as described. -/
theorem C5_cpp_never_extracted :
    extract_skills_from_text (pystr "c++ developer") = [] ∧
    normalize_text (pystr "c++ developer") = pystr "c   developer" ∧
    extract_skills_from_text (pystr "scipy") = [pystr "scipy"] := by decide

/-- C6 (amended): triaging an application that is no longer in `applied`
state leaves the database — hence the application's status, reviewer,
timestamp and notes — unchanged for any reviewer, and for the job's owner
submitting a valid action the attempt fails with the 404 not-found
response (\x22Application not found or already reviewed\x22), not with a
distinct conflict error. -/
theorem C6_review_terminal_unchanged (db : List Application) (user : ℕ)
    (j : Job) (aid : ℕ) (act notes : String) (now : ℕ)
    (hterm : ∀ a ∈ db, a.id = aid → a.job_id = j.id → a.status ≠ "applied") :
    (review_application db user j (some aid) act notes now).2 = db ∧
    (j.company_owner = user →
      act ∈ (["accepted", "rejected", "maybe"] : List String) →
      (review_application db user j (some aid) act notes now).1 =
        .error .notFound) := by
  have hfind : db.find? (fun a =>
      a.id == aid && a.job_id == j.id && a.status == "applied") = none := by
    rw [List.find?_eq_none]
    intro a ha hpred
    simp only [Bool.and_eq_true, beq_iff_eq] at hpred
    obtain ⟨⟨h1, h2⟩, h3⟩ := hpred
    exact hterm a ha h1 h2 h3
  constructor
  · unfold review_application
    by_cases h1 : j.company_owner ≠ user
    · rw [if_pos h1]
    · rw [if_neg h1]
      dsimp only
      by_cases h2 : act ∉ (["accepted", "rejected", "maybe"] : List String)
      · rw [if_pos h2]
      · rw [if_neg h2, hfind]
  · intro howner hact
    unfold review_application
    rw [if_neg (by simp [howner])]
    dsimp only
    rw [if_neg (not_not_intro hact), hfind]

/-- Counterexample for C6 as stated: triaging the already-accepted
application answers the not-found error, not a conflict error (and leaves
the database unchanged). -/
theorem C6_counterexample :
    (review_application dbR 42 jobR (some 5) "rejected" "" 0).1 =
      .error .notFound ∧
    (review_application dbR 42 jobR (some 5) "rejected" "" 0).1 ≠
      .error .conflict ∧
    (review_application dbR 42 jobR (some 5) "rejected" "" 0).2 = dbR := by
  refine ⟨rfl, ?_, rfl⟩
  intro hc
  have h1 : (review_application dbR 42 jobR (some 5) "rejected" "" 0).1 =
      .error .notFound := rfl
  rw [h1] at hc
  exact absurd hc (by decide)

/-- Witness for C6: the amended statement applied to the concrete
already-accepted application. -/
theorem C6_witness :
    (review_application dbR 42 jobR (some 5) "rejected" "notes" 7).2 = dbR :=
  (C6_review_terminal_unchanged dbR 42 jobR 5 "rejected" "notes" 7
    (by decide)).1

/-- C7 (amended): a second application for the same (job, applicant) pair
fails — as an uncaught database IntegrityError surfaced as a server
error, not as a distinct ConflictError — and creates nothing: the
at-most-one-application-per-pair invariant is preserved by every
submission. -/
theorem C7_duplicate_application (jobs : List Job) (db : List Application)
    (user : ℕ) (p : UserProfile) (job_id new_id : ℕ) :
    (∀ jb, jobs.find? (fun j => j.id == job_id) = some jb →
      (∃ a ∈ db, a.job_id = jb.id ∧ a.applicant = user) →
      perform_create jobs db user p job_id new_id = (.error .server, db)) ∧
    (uniquePairs db →
      uniquePairs (perform_create jobs db user p job_id new_id).2) := by
  constructor
  · intro jb hfind hdup
    have hany : db.any
        (fun a => a.job_id == jb.id && a.applicant == user) = true := by
      rcases hdup with ⟨a, ha, h1, h2⟩
      rw [List.any_eq_true]
      exact ⟨a, ha, by simp [h1, h2]⟩
    unfold perform_create
    rw [hfind]
    dsimp only
    rw [if_pos hany]
  · intro hu
    unfold perform_create
    rcases hfind : jobs.find? (fun j => j.id == job_id) with _ | jb
    · rw [hfind]
      exact hu
    · rw [hfind]
      dsimp only
      by_cases hany : db.any
          (fun a => a.job_id == jb.id && a.applicant == user) = true
      · rw [if_pos hany]
        exact hu
      · rw [if_neg hany]
        refine List.pairwise_append.mpr ⟨hu, List.pairwise_singleton _ _, ?_⟩
        intro a ha b hb
        simp only [List.mem_singleton] at hb
        subst hb
        rintro ⟨h1, h2⟩
        dsimp only at h1 h2
        exact hany (by rw [List.any_eq_true]; exact ⟨a, ha, by simp [h1, h2]⟩)

/-- Counterexample for C7 as stated: the duplicate submission fails with
the unhandled-IntegrityError outcome (server error), not a conflict
error; no record is added. -/
theorem C7_counterexample :
    perform_create [jobA] dbA 7 pNeutral 11 99 = (.error .server, dbA) ∧
    (perform_create [jobA] dbA 7 pNeutral 11 99).1 ≠ .error .conflict ∧
    (perform_create [jobA] dbA 7 pNeutral 11 99).2.length = 1 := by
  refine ⟨rfl, ?_, rfl⟩
  intro hc
  have h1 : (perform_create [jobA] dbA 7 pNeutral 11 99).1 =
      .error .server := rfl
  rw [h1] at hc
  exact absurd hc (by decide)

/-- Witness for C7: the amended statement applied to the concrete
duplicate submission. -/
theorem C7_witness :
    perform_create [jobA] dbA 7 pNeutral 11 100 = (.error .server, dbA) :=
  (C7_duplicate_application [jobA] dbA 7 pNeutral 11 100).1 jobA rfl
    ⟨appDup, List.mem_singleton_self appDup, rfl, rfl⟩

/-- C8: `perform_create` looks the job up with no `is_active` filter
(`get_object_or_404(Job, id=job_id)`), so a submission referencing an
inactive job succeeds and creates an application record instead of
failing with a not-found error. -/
theorem C8_inactive_job_submission :
    jobInactive.is_active = false ∧
    (perform_create [jobInactive] [] 7 pNeutral 12 99).1 = .ok () ∧
    (perform_create [jobInactive] [] 7 pNeutral 12 99).2.length = 1 :=
  ⟨rfl, rfl, rfl⟩

/-- C9 (amended): the recommendations view performs no limit validation:
for limit ≤ 0 it still returns the engine's (sliced) result list and
never an error; at limit = 0 the list is empty. -/
theorem C9_no_limit_validation (p : UserProfile) (jobs : List Job)
    (applied : List ℕ) (limit : ℤ) (hlim : limit ≤ 0) :
    recommendations_view p jobs applied limit =
      .ok (get_job_recommendations p jobs applied limit) ∧
    (∀ e, recommendations_view p jobs applied limit ≠ .error e) ∧
    (limit = 0 → get_job_recommendations p jobs applied limit = []) := by
  refine ⟨rfl, ?_, ?_⟩
  · intro e hc
    exact ApiResult.noConfusion hc
  · rintro rfl
    unfold get_job_recommendations pySlice
    simp

/-- Counterexample for C9 as stated: at limit 0 the view returns a result
list (the empty one), it does not raise a validation error. -/
theorem C9_counterexample :
    recommendations_view pNeutral [] [] 0 = .ok [] ∧
    ¬(∃ e, recommendations_view pNeutral [] [] 0 = .error e) := by
  have h : recommendations_view pNeutral [] [] 0 = .ok [] := rfl
  refine ⟨h, ?_⟩
  rintro ⟨e, hc⟩
  rw [h] at hc
  exact ApiResult.noConfusion hc

/-- Witness for C9: the amended statement applied at limit 0 with one
stored job. -/
theorem C9_witness :
    recommendations_view pNeutral [jPlain] [] 0 =
      .ok (get_job_recommendations pNeutral [jPlain] [] 0) ∧
    get_job_recommendations pNeutral [jPlain] [] 0 = [] := by
  have h := C9_no_limit_validation pNeutral [jPlain] [] 0 (by norm_num)
  exact ⟨h.1, h.2.2 rfl⟩

